import Mathlib

/-!
Verification of the FastText sentiment-classification notebook
(`3 - Faster Sentiment Analysis.ipynb`).

The code cells of the notebook define `generate_bigrams`, `binary_accuracy`,
`train`, `evaluate` and `predict_sentiment`; those are embedded here directly
from the source.  The helper module `data_utils` (vocabulary builder,
`vectorize`, `tokenizer`) is imported by the notebook but its source is not in
the repository snapshot, so those pieces are modelled from the specification
and are marked as such in their doc comments.
-/

namespace UdsNLP

/-- Joining a pair of tokens with a single space, as in the source line
`x.append(...)` joining each 2-tuple `n_gram` with a single space. -/
def joinPair (p : String × String) : String := p.1 ++ " " ++ p.2

/-- Embedding of the notebook function

```python
def generate_bigrams(x):
    n_grams = list(zip(*[x[i:] for i in range(2)]))
    for n_gram in n_grams:
        x.append(" ".join(n_gram))
    return x
```

`zip(*[x[i:] for i in range(2)])` is `zip(x[0:], x[1:])`, i.e. the adjacent
pairs of the original list; both slices are copies taken before the loop, so
the appends do not feed back into `n_grams`.  The returned value is the
original sequence followed by the joined pairs. -/
def generate_bigrams (x : List String) : List String :=
  x ++ (x.zip x.tail).map joinPair

theorem zip_tail_map_eq_range (x : List String) :
    (x.zip x.tail).map joinPair =
      (List.range (x.length - 1)).map
        (fun i => x.getD i "" ++ " " ++ x.getD (i + 1) "") := by
  induction x with
  | nil => simp
  | cons a t ih =>
    cases t with
    | nil => simp
    | cons b u =>
      have hlen : (a :: b :: u).length - 1 = (b :: u).length - 1 + 1 := by
        simp
      rw [hlen, List.range_succ_eq_map, List.map_cons]
      show joinPair (a, b) :: List.map joinPair ((b :: u).zip u) = _
      rw [show ((b :: u).zip (b :: u).tail) = (b :: u).zip u from rfl] at ih
      rw [ih, List.map_map]
      simp [joinPair, Function.comp]

/-- C1: `generate_bigrams x` is `x` followed by, for each position `i` from
`0` to `len x - 2` in left-to-right order, `x[i]` and `x[i+1]` joined by a
single space; duplicates are kept because the result is literally this
concatenation. -/
theorem generate_bigrams_spec (x : List String) :
    generate_bigrams x =
      x ++ (List.range (x.length - 1)).map
        (fun i => x.getD i "" ++ " " ++ x.getD (i + 1) "") := by
  rw [generate_bigrams, zip_tail_map_eq_range]

theorem generate_bigrams_length_eq (x : List String) :
    (generate_bigrams x).length = x.length + (x.length - 1) := by
  simp [generate_bigrams, List.length_zip]

/-- C2: for token sequences of length at least 2, `generate_bigrams` appends
exactly `len x - 1` bigrams, so the result has length `2 * len x - 1`. -/
theorem generate_bigrams_length (x : List String) (h : 2 ≤ x.length) :
    (generate_bigrams x).length = 2 * x.length - 1 ∧
    (generate_bigrams x).length - x.length = x.length - 1 := by
  have hlen := generate_bigrams_length_eq x
  omega

/-- Witness for C2 at the concrete input `["a", "b"]`. -/
theorem generate_bigrams_length_witness :
    (generate_bigrams ["a", "b"]).length = 2 * (["a", "b"] : List String).length - 1 ∧
    (generate_bigrams ["a", "b"]).length - (["a", "b"] : List String).length =
      (["a", "b"] : List String).length - 1 :=
  generate_bigrams_length ["a", "b"] (by decide)

/-- C3: on the empty sequence and on every single-token sequence,
`generate_bigrams` returns its input with no bigrams appended; it is a total
function on all lists, so no input is an error. -/
theorem generate_bigrams_small :
    generate_bigrams ([] : List String) = [] ∧
    ∀ t : String, generate_bigrams [t] = [t] :=
  ⟨rfl, fun _ => rfl⟩

/-- C4: the example evaluation in the notebook. -/
theorem generate_bigrams_example :
    generate_bigrams ["This", "film", "is", "terrible"] =
      ["This", "film", "is", "terrible", "This film", "film is", "is terrible"] := rfl

/-- The reserved unknown token of the vocabulary. -/
def unkToken : String := "<unk>"

/-- The reserved padding token of the vocabulary. -/
def padToken : String := "<pad>"

/-- Modelled from the spec: the first-seen scan of the vocabulary builder in
the missing `data_utils` module.  It keeps each distinct token at its first
occurrence, skipping tokens already seen (`seen` starts with the reserved
tokens). -/
def firstSeen : List String → List String → List String
  | [], _ => []
  | t :: rest, seen =>
    if t ∈ seen then firstSeen rest seen
    else t :: firstSeen rest (t :: seen)

/-- Modelled from the spec: the vocabulary builder of the missing
`data_utils.build_dataset`.  A vocabulary is represented as the list of its
tokens; the id of a token is its index, so ids are contiguous from 0 by
construction.  The two reserved tokens are seeded at fixed ids 0 and 1,
then first-seen order assigns increasing ids to the corpus tokens. -/
def build_vocab (examples : List (List String)) : List String :=
  unkToken :: padToken :: firstSeen examples.flatten [unkToken, padToken]

/-- The id of a token in a vocabulary list, `none` when absent. -/
def findId : List String → String → Option Nat
  | [], _ => none
  | a :: rest, t =>
    if a = t then some 0 else (findId rest t).map (fun n => n + 1)

/-- Modelled from the spec: the token-to-id lookup of the missing
`data_utils.vectorize`; a token absent from the vocabulary is silently
replaced by the id of the reserved unknown token. -/
def lookupId (vocab : List String) (t : String) : Nat :=
  match findId vocab t with
  | some i => i
  | none => (findId vocab unkToken).getD 0

/-- Modelled from the spec: the missing `data_utils.vectorize`, a pure map
from tokens to vocabulary ids. -/
def vectorize (vocab : List String) (toks : List String) : List Nat :=
  toks.map (lookupId vocab)

theorem findId_eq_none_of_not_mem {l : List String} {t : String}
    (h : t ∉ l) : findId l t = none := by
  induction l with
  | nil => rfl
  | cons a rest ih =>
    have ha : a ≠ t := fun hat => h (hat ▸ List.mem_cons_self a rest)
    have hrest : t ∉ rest := fun hm => h (List.mem_cons_of_mem a hm)
    simp [findId, ha, ih hrest]

theorem findId_unk (examples : List (List String)) :
    findId (build_vocab examples) unkToken = some 0 := by
  simp [build_vocab, findId]

/-- C5: for every token absent from the built vocabulary, lookup yields the
id of the reserved unknown token (which is id 0), and vectorization is a
total function, so out-of-vocabulary input is never an error. -/
theorem vectorize_oov (examples : List (List String)) (t : String)
    (h : t ∉ build_vocab examples) :
    lookupId (build_vocab examples) t = lookupId (build_vocab examples) unkToken ∧
    lookupId (build_vocab examples) t = 0 ∧
    ∀ toks : List String,
      (vectorize (build_vocab examples) toks).length = toks.length := by
  have hnone := findId_eq_none_of_not_mem h
  have hunk := findId_unk examples
  refine ⟨?_, ?_, ?_⟩
  · simp [lookupId, hnone, hunk]
  · simp [lookupId, hnone, hunk]
  · intro toks
    simp [vectorize]

/-- Witness for C5: the token `"y"` is absent from the vocabulary built from
the corpus `[["x"]]` and is mapped to the unknown id. -/
theorem vectorize_oov_witness :
    lookupId (build_vocab [["x"]]) "y" = lookupId (build_vocab [["x"]]) unkToken ∧
    lookupId (build_vocab [["x"]]) "y" = 0 ∧
    ∀ toks : List String,
      (vectorize (build_vocab [["x"]]) toks).length = toks.length :=
  vectorize_oov [["x"]] "y" (by decide)

theorem not_mem_seen_of_mem_firstSeen :
    ∀ (l seen : List String) (t : String), t ∈ firstSeen l seen → t ∉ seen := by
  intro l
  induction l with
  | nil => intro seen t h; simp [firstSeen] at h
  | cons a rest ih =>
    intro seen t h
    by_cases ha : a ∈ seen
    · rw [firstSeen, if_pos ha] at h
      exact ih seen t h
    · rw [firstSeen, if_neg ha] at h
      rcases List.mem_cons.mp h with h1 | h2
      · exact h1 ▸ ha
      · intro hseen
        exact ih (a :: seen) t h2 (List.mem_cons_of_mem a hseen)

theorem firstSeen_nodup : ∀ (l seen : List String), (firstSeen l seen).Nodup := by
  intro l
  induction l with
  | nil => intro seen; simp [firstSeen]
  | cons a rest ih =>
    intro seen
    by_cases ha : a ∈ seen
    · rw [firstSeen, if_pos ha]; exact ih seen
    · rw [firstSeen, if_neg ha]
      refine List.nodup_cons.mpr ⟨?_, ih (a :: seen)⟩
      intro hmem
      exact not_mem_seen_of_mem_firstSeen rest (a :: seen) a hmem
        (List.mem_cons_self a seen)

theorem build_vocab_nodup (examples : List (List String)) :
    (build_vocab examples).Nodup := by
  have hfs := firstSeen_nodup examples.flatten [unkToken, padToken]
  have hnotmem := fun t ht =>
    not_mem_seen_of_mem_firstSeen examples.flatten [unkToken, padToken] t ht
  refine List.nodup_cons.mpr ⟨?_, List.nodup_cons.mpr ⟨?_, hfs⟩⟩
  · intro h
    rcases List.mem_cons.mp h with h1 | h2
    · exact absurd h1 (by decide)
    · exact hnotmem unkToken h2 (by simp)
  · intro h
    exact hnotmem padToken h (by simp)

theorem findId_get_of_nodup :
    ∀ (l : List String), l.Nodup → ∀ (i : Nat) (h : i < l.length),
      findId l (l.get ⟨i, h⟩) = some i := by
  intro l
  induction l with
  | nil => intro _ i h; exact absurd h (by simp)
  | cons a rest ih =>
    intro hnd i h
    cases i with
    | zero => simp [findId]
    | succ n =>
      have hn : n < rest.length := by simpa using h
      have hget : (a :: rest).get ⟨n + 1, h⟩ = rest.get ⟨n, hn⟩ := rfl
      have hmem : rest.get ⟨n, hn⟩ ∈ rest := rest.get_mem n hn
      have hne : a ≠ rest.get ⟨n, hn⟩ := by
        intro heq
        exact (List.nodup_cons.mp hnd).1 (heq ▸ hmem)
      rw [hget, findId, if_neg hne, ih (List.nodup_cons.mp hnd).2 n hn]
      rfl

/-- C6: every built vocabulary has distinct tokens, the reserved tokens
`<unk>` and `<pad>` at the fixed ids 0 and 1, and the id of every token equal to
its index, so ids are exactly the contiguous range from 0 to the size minus
one.  The vocabulary is a pure value, so the mapping the datasets share is
never modified after construction. -/
theorem build_vocab_invariants (examples : List (List String)) (i : Nat)
    (h : i < (build_vocab examples).length) :
    (build_vocab examples).Nodup ∧
    findId (build_vocab examples) unkToken = some 0 ∧
    findId (build_vocab examples) padToken = some 1 ∧
    findId (build_vocab examples) ((build_vocab examples).get ⟨i, h⟩) = some i := by
  refine ⟨build_vocab_nodup examples, findId_unk examples, ?_, ?_⟩
  · have hne : unkToken ≠ padToken := by decide
    simp [build_vocab, findId, hne]
  · exact findId_get_of_nodup _ (build_vocab_nodup examples) i h

/-- Witness for C6 on the corpus `[["a"]]`, whose vocabulary is
`["<unk>", "<pad>", "a"]`, at index 2. -/
theorem build_vocab_invariants_witness :
    (build_vocab [["a"]]).Nodup ∧
    findId (build_vocab [["a"]]) unkToken = some 0 ∧
    findId (build_vocab [["a"]]) padToken = some 1 ∧
    findId (build_vocab [["a"]]) ((build_vocab [["a"]]).get ⟨2, by decide⟩) = some 2 :=
  build_vocab_invariants [["a"]] 2 (by decide)

/-- The id-sequence computation of the notebook function

```python
def predict_sentiment(model, sentence):
    model.eval()
    tokenized = generate_bigrams([tok for tok in tokenizer(sentence)])
    indexed = vectorize(VOCAB, tokenized, one_sentence=True)
    ...
```

parametrised over the output `toks` of the external tokenizer (a black box
per the spec); the list comprehension builds a fresh list for each call. -/
def predictIds (vocab : List String) (toks : List String) : List Nat :=
  vectorize vocab (generate_bigrams toks)

theorem predictIds_getD (vocab toks : List String) (i : Nat)
    (hi : i < (generate_bigrams toks).length) :
    (predictIds vocab toks).getD i 0 =
      lookupId vocab ((generate_bigrams toks).getD i "") := by
  simp [predictIds, vectorize, List.getD_eq_getElem?_getD, List.getElem?_map,
    List.getElem?_eq_getElem hi]

/-- C7: the tokenize → generate_bigrams → vectorize pipeline of
`predict_sentiment` is deterministic: two runs on the same tokenizer output
give the same id sequence, and within a run equal tokens always receive the
same id. -/
theorem predictIds_deterministic (vocab toks : List String) (i j : Nat)
    (hi : i < (generate_bigrams toks).length)
    (hj : j < (generate_bigrams toks).length)
    (heq : (generate_bigrams toks).getD i "" = (generate_bigrams toks).getD j "") :
    predictIds vocab toks = predictIds vocab toks ∧
    (predictIds vocab toks).getD i 0 = (predictIds vocab toks).getD j 0 := by
  refine ⟨rfl, ?_⟩
  rw [predictIds_getD vocab toks i hi, predictIds_getD vocab toks j hj, heq]

/-- Witness for C7: in `generate_bigrams ["a", "a"]` the tokens at positions
0 and 1 are both `"a"` and receive the same id. -/
theorem predictIds_deterministic_witness :
    predictIds (build_vocab [["a"]]) ["a", "a"] = predictIds (build_vocab [["a"]]) ["a", "a"] ∧
    (predictIds (build_vocab [["a"]]) ["a", "a"]).getD 0 0 =
      (predictIds (build_vocab [["a"]]) ["a", "a"]).getD 1 0 :=
  predictIds_deterministic (build_vocab [["a"]]) ["a", "a"] 0 1
    (by decide) (by decide) (by decide)

/-- C8: `generate_bigrams` is not idempotent.  Applying it twice to a list of
length at least 2 gives a strictly longer list of length `4 * len x - 3`, due
to bigrams formed from previously appended bigram strings; a single
application returns the input value extended in place by a non-empty block
of bigrams, which is why `predict_sentiment` rebuilds a fresh token list on
every call. -/
theorem generate_bigrams_not_idempotent (x : List String) (h : 2 ≤ x.length) :
    generate_bigrams (generate_bigrams x) ≠ generate_bigrams x ∧
    (generate_bigrams (generate_bigrams x)).length = 4 * x.length - 3 ∧
    ∃ ys, ys ≠ [] ∧ generate_bigrams x = x ++ ys := by
  have h1 := generate_bigrams_length_eq x
  have h2 := generate_bigrams_length_eq (generate_bigrams x)
  refine ⟨?_, by omega, ?_⟩
  · intro hcontra
    have := congrArg List.length hcontra
    omega
  · refine ⟨(x.zip x.tail).map joinPair, ?_, rfl⟩
    intro hnil
    have := congrArg List.length hnil
    simp [List.length_zip] at this
    omega

/-- Witness for C8 at the concrete input `["a", "b"]`. -/
theorem generate_bigrams_not_idempotent_witness :
    generate_bigrams (generate_bigrams ["a", "b"]) ≠ generate_bigrams ["a", "b"] ∧
    (generate_bigrams (generate_bigrams ["a", "b"])).length =
      4 * (["a", "b"] : List String).length - 3 ∧
    ∃ ys, ys ≠ [] ∧ generate_bigrams ["a", "b"] = ["a", "b"] ++ ys :=
  generate_bigrams_not_idempotent ["a", "b"] (by decide)

/-- Division as performed at the end of `train` and `evaluate`: Python
raises `ZeroDivisionError` when the divisor is zero. -/
def divOrErr (a : ℚ) (b : Nat) : Except String ℚ :=
  if b = 0 then Except.error "ZeroDivisionError" else Except.ok (a / b)

/-- Embedding of the notebook function `train`.  The optimizer and model are
external black boxes; per batch they contribute a loss value `loss.item()`
and an accuracy value `acc.item()`, abstracted as `lossOf` and `accOf`.  The
loop accumulates `epoch_loss` and `epoch_acc` and the function returns
`epoch_loss / len(iterator), epoch_acc / len(iterator)` with no guard on the
divisor. -/
def train {β : Type} (lossOf accOf : β → ℚ) (iterator : List β) :
    Except String (ℚ × ℚ) := do
  let epoch_loss := (iterator.map lossOf).sum
  let epoch_acc := (iterator.map accOf).sum
  let l ← divOrErr epoch_loss iterator.length
  let a ← divOrErr epoch_acc iterator.length
  return (l, a)

/-- Embedding of the notebook function `evaluate`: same accumulation and
unguarded final division as `train`, inside `torch.no_grad()` (which has no
effect on the returned values). -/
def evaluate {β : Type} (lossOf accOf : β → ℚ) (iterator : List β) :
    Except String (ℚ × ℚ) := do
  let epoch_loss := (iterator.map lossOf).sum
  let epoch_acc := (iterator.map accOf).sum
  let l ← divOrErr epoch_loss iterator.length
  let a ← divOrErr epoch_acc iterator.length
  return (l, a)

/-- C9: on an iterator with zero batches both `train` and `evaluate` hit a
`ZeroDivisionError` in `epoch_loss / len(iterator)` instead of returning a
value, while on any single-batch iterator both return normally. -/
theorem train_evaluate_zero_batches {β : Type} (lossOf accOf : β → ℚ) :
    train lossOf accOf [] = Except.error "ZeroDivisionError" ∧
    evaluate lossOf accOf [] = Except.error "ZeroDivisionError" ∧
    ∀ b : β, train lossOf accOf [b] = Except.ok (lossOf b, accOf b) ∧
      evaluate lossOf accOf [b] = Except.ok (lossOf b, accOf b) := by
  refine ⟨rfl, rfl, ?_⟩
  intro b
  constructor <;>
    simp [train, evaluate, divOrErr, Bind.bind, Except.bind, Pure.pure, Except.pure]

/-- Exact characterization of `torch.round(torch.sigmoid(p))` for a real
prediction `p`: the sigmoid is strictly increasing with value 1/2 at 0, it
never reaches 0 or 1, and `torch.round` takes 1/2 to 0 (round half to even),
so the rounded value is 1 exactly when `p > 0` and 0 otherwise. -/
def roundSigmoid (p : ℚ) : ℚ := if 0 < p then 1 else 0

/-- Embedding of the notebook function

```python
def binary_accuracy(preds, y):
    rounded_preds = torch.round(torch.sigmoid(preds))
    correct = (rounded_preds == y).float()
    acc = correct.sum() / len(correct)
    return acc
```

Tensors become lists of rationals; elementwise `==` followed by `.float()`
becomes an indicator map over the zipped lists. -/
def binary_accuracy (preds y : List ℚ) : ℚ :=
  let rounded_preds := preds.map roundSigmoid
  let correct := (rounded_preds.zip y).map (fun c => if c.1 = c.2 then (1 : ℚ) else 0)
  correct.sum / correct.length

theorem sum_indicator_eq_countP (p : ℚ × ℚ → Prop) [DecidablePred p] :
    ∀ l : List (ℚ × ℚ),
      (l.map fun c => if p c then (1 : ℚ) else 0).sum =
        (l.countP fun c => decide (p c) : ℚ) := by
  intro l
  induction l with
  | nil => simp
  | cons a rest ih =>
    by_cases hpa : p a <;> simp [List.countP_cons, hpa, ih, add_comm]

/-- C10: for prediction and label lists of equal positive length `n`,
`binary_accuracy` returns the number of positions where the rounded sigmoid
of the prediction equals the label, divided by `n` — a fraction in `[0, 1]`,
not the raw count of correct predictions. -/
theorem binary_accuracy_is_fraction (preds y : List ℚ) (n : Nat)
    (hp : preds.length = n) (hy : y.length = n) (hn : 0 < n) :
    binary_accuracy preds y =
      ((preds.zip y).countP (fun c => decide (roundSigmoid c.1 = c.2)) : ℚ) / n ∧
    0 ≤ binary_accuracy preds y ∧ binary_accuracy preds y ≤ 1 := by
  have hzip : (preds.map roundSigmoid).zip y =
      (preds.zip y).map (Prod.map roundSigmoid id) := List.zip_map_left _ _ _
  have hcount : ((preds.map roundSigmoid).zip y).map
        (fun c => if c.1 = c.2 then (1 : ℚ) else 0) =
      (preds.zip y).map (fun c => if roundSigmoid c.1 = c.2 then (1 : ℚ) else 0) := by
    rw [hzip, List.map_map]
    rfl
  have hlen : (((preds.map roundSigmoid).zip y).map
      (fun c => if c.1 = c.2 then (1 : ℚ) else 0)).length = n := by
    simp [List.length_zip, hp, hy]
  have hsum := sum_indicator_eq_countP (fun c : ℚ × ℚ => roundSigmoid c.1 = c.2)
    (preds.zip y)
  have hacc : binary_accuracy preds y =
      ((preds.zip y).countP (fun c => decide (roundSigmoid c.1 = c.2)) : ℚ) / n := by
    rw [binary_accuracy]
    rw [hlen, hcount, hsum]
  refine ⟨hacc, ?_, ?_⟩
  · rw [hacc]
    positivity
  · rw [hacc]
    rw [div_le_one (by positivity)]
    have hle : (preds.zip y).countP (fun c => decide (roundSigmoid c.1 = c.2)) ≤ n := by
      calc (preds.zip y).countP (fun c => decide (roundSigmoid c.1 = c.2))
          ≤ (preds.zip y).length := List.countP_le_length _
        _ = n := by simp [List.length_zip, hp, hy]
    exact_mod_cast hle

/-- Witness for C10: predictions `[1, -1]` against labels `[1, 1]` give
accuracy `1/2`. -/
theorem binary_accuracy_is_fraction_witness :
    binary_accuracy [1, -1] [1, 1] =
      ((([1, -1] : List ℚ).zip [1, 1]).countP
        (fun c => decide (roundSigmoid c.1 = c.2)) : ℚ) / (2 : Nat) ∧
    0 ≤ binary_accuracy [1, -1] [1, 1] ∧ binary_accuracy [1, -1] [1, 1] ≤ 1 :=
  binary_accuracy_is_fraction [1, -1] [1, 1] 2 (by decide) (by decide) (by decide)

end UdsNLP
